import Mathlib

/-!
Shallow embedding of the power-instruction-analyzer semantic-model layer:
the status-register codec (lib.rs), the instruction input/output records and
their try-get accessors (lib.rs), the per-opcode model functions
(instr_models.rs) with the variant-generating macros expressed as
combinators, the instruction registry (the instructions! declarations in
lib.rs), the hex codec (serde_hex.rs) and the harness value domain
(main.rs TEST_VALUES).

Machine integers are modelled as Nat (for u64/u32 values, bounded by
2 ^ 64 / 2 ^ 32 where it matters) and Int (for signed views), with explicit
two's-complement conversions.
-/

namespace Pia

/-- Interpretation of a u64 bit pattern as a signed i64 (two's complement). -/
def i64ofU64 (n : Nat) : Int :=
  if n < 2 ^ 63 then (n : Int) else (n : Int) - 2 ^ 64

/-- Interpretation of the low 32 bits of a u64 value as a signed i32,
modelling Rust's `as i32` truncating cast. -/
def i32ofU64 (n : Nat) : Int :=
  let m : Nat := n % 2 ^ 32
  if m < 2 ^ 31 then (m : Int) else (m : Int) - 2 ^ 32

/-- Truncation of an integer to a u64 bit pattern, modelling Rust's `as u64`
cast of a signed value (two's complement low 64 bits). -/
def u64ofInt (z : Int) : Nat :=
  (z % 2 ^ 64).toNat

/-- Truncation of an integer to a u32 bit pattern, modelling Rust's
`as u32` cast (low 32 bits). -/
def u32ofInt (z : Int) : Nat :=
  (z % 2 ^ 32).toNat

/-- Wrapping of an integer into the i64 range, modelling Rust's wrapping
64-bit signed arithmetic and `as i64` truncation from a wider type. -/
def wrapI64 (z : Int) : Int :=
  (z + 2 ^ 63) % 2 ^ 64 - 2 ^ 63

/-- Wrapping of an integer into the i32 range, modelling Rust's wrapping
32-bit signed arithmetic and `as i32` truncation from a wider type. -/
def wrapI32 (z : Int) : Int :=
  (z + 2 ^ 31) % 2 ^ 32 - 2 ^ 31

/-- XER bit mask for a PowerPC bit number (bits count from MSB to LSB),
from lib.rs `get_xer_bit_mask`. -/
def get_xer_bit_mask (powerpc_bit_num : Nat) : Nat :=
  (1 <<< 63) >>> powerpc_bit_num

/-- Overflow flag record, from lib.rs `OverflowFlags` (xer_subset macro). -/
structure OverflowFlags where
  so : Bool
  ov : Bool
  ov32 : Bool
  deriving DecidableEq, Fintype

/-- Zero value of OverflowFlags, from Rust's derived Default (all false). -/
def OverflowFlags.default : OverflowFlags :=
  ⟨false, false, false⟩

def OverflowFlags.XER_SO_MASK : Nat := get_xer_bit_mask 32

def OverflowFlags.XER_OV_MASK : Nat := get_xer_bit_mask 33

def OverflowFlags.XER_OV32_MASK : Nat := get_xer_bit_mask 44

/-- Decoding of the overflow flag group from a 64-bit XER word, from the
xer_subset macro's generated from_xer. -/
def OverflowFlags.from_xer (xer : Nat) : OverflowFlags where
  so := (xer &&& XER_SO_MASK) != 0
  ov := (xer &&& XER_OV_MASK) != 0
  ov32 := (xer &&& XER_OV32_MASK) != 0

/-- Encoding of the overflow flag group into a 64-bit XER word, from the
xer_subset macro's generated to_xer. -/
def OverflowFlags.to_xer (self : OverflowFlags) : Nat :=
  (if self.so then XER_SO_MASK else 0) |||
    (if self.ov then XER_OV_MASK else 0) |||
    (if self.ov32 then XER_OV32_MASK else 0)

/-- Overflow flags with every field set from one this-operation overflow
bit, from lib.rs `OverflowFlags::from_overflow`. -/
def OverflowFlags.from_overflow (overflow : Bool) : OverflowFlags :=
  { so := overflow, ov := overflow, ov32 := overflow }

/-- Carry flag record, from lib.rs `CarryFlags` (xer_subset macro). -/
structure CarryFlags where
  ca : Bool
  ca32 : Bool
  deriving DecidableEq, Fintype

def CarryFlags.XER_CA_MASK : Nat := get_xer_bit_mask 34

def CarryFlags.XER_CA32_MASK : Nat := get_xer_bit_mask 45

/-- Decoding of the carry flag group from a 64-bit XER word. -/
def CarryFlags.from_xer (xer : Nat) : CarryFlags where
  ca := (xer &&& XER_CA_MASK) != 0
  ca32 := (xer &&& XER_CA32_MASK) != 0

/-- Encoding of the carry flag group into a 64-bit XER word. -/
def CarryFlags.to_xer (self : CarryFlags) : Nat :=
  (if self.ca then XER_CA_MASK else 0) |||
    (if self.ca32 then XER_CA32_MASK else 0)

/-- Condition-register field record, from lib.rs `ConditionRegister`. -/
structure ConditionRegister where
  lt : Bool
  gt : Bool
  eq : Bool
  so : Bool
  deriving DecidableEq, Fintype

/-- Condition-register field derived from a signed comparison of a result
value against zero, from lib.rs `ConditionRegister::from_signed_int`
(instantiated at the signed integer views used by the models). -/
def ConditionRegister.from_signed_int (value : Int) (so : Bool) :
    ConditionRegister where
  lt := decide (value < 0)
  gt := decide (0 < value)
  eq := decide (value = 0)
  so := so

/-- Logical input registers an instruction may read, from lib.rs
`InstructionInputRegister`.  The lib.rs snapshot declares only Ra, Rb, Rc
and Carry; the Overflow enumerant is referenced by the proc-macro's
`map_input_registers` and required by instr_models.rs' try_get_overflow
calls, and is modelled from the spec (MissingInput names the logical
register that was needed but absent). -/
inductive InstructionInputRegister where
  | Ra
  | Rb
  | Rc
  | Carry
  | Overflow
  deriving DecidableEq

/-- Instruction input record, from lib.rs `InstructionInput`.  The
`overflow` field is read by instr_models.rs (propagate_so and the variant
macros); it is absent from the lib.rs snapshot's struct and is modelled
from the spec: optional fields `carry: Option<CarryFlags>`,
`overflow: Option<OverflowFlags>`. -/
structure InstructionInput where
  ra : Option Nat := none
  rb : Option Nat := none
  rc : Option Nat := none
  carry : Option CarryFlags := none
  overflow : Option OverflowFlags := none
  deriving DecidableEq

/-- Typed missing-input error, from lib.rs `MissingInstructionInput`. -/
structure MissingInstructionInput where
  input : InstructionInputRegister
  deriving DecidableEq

/-- Instruction output record, from lib.rs `InstructionOutput`; every field
starts absent and model functions populate only what they produce. -/
structure InstructionOutput where
  rt : Option Nat := none
  overflow : Option OverflowFlags := none
  carry : Option CarryFlags := none
  cr0 : Option ConditionRegister := none
  cr1 : Option ConditionRegister := none
  cr2 : Option ConditionRegister := none
  cr3 : Option ConditionRegister := none
  cr4 : Option ConditionRegister := none
  cr5 : Option ConditionRegister := none
  cr6 : Option ConditionRegister := none
  cr7 : Option ConditionRegister := none
  deriving DecidableEq

/-- Result type of a model function, from lib.rs `InstructionResult`. -/
abbrev InstructionResult :=
  Except MissingInstructionInput InstructionOutput

/-- Accessor returning ra or the MissingInput error, from lib.rs
`impl_instr_try_get` (try_get_ra). -/
def InstructionInput.try_get_ra (self : InstructionInput) :
    Except MissingInstructionInput Nat :=
  match self.ra with
  | some v => .ok v
  | none => .error ⟨.Ra⟩

/-- Accessor returning rb or the MissingInput error. -/
def InstructionInput.try_get_rb (self : InstructionInput) :
    Except MissingInstructionInput Nat :=
  match self.rb with
  | some v => .ok v
  | none => .error ⟨.Rb⟩

/-- Accessor returning rc or the MissingInput error. -/
def InstructionInput.try_get_rc (self : InstructionInput) :
    Except MissingInstructionInput Nat :=
  match self.rc with
  | some v => .ok v
  | none => .error ⟨.Rc⟩

/-- Accessor returning the carry flags or the MissingInput error. -/
def InstructionInput.try_get_carry (self : InstructionInput) :
    Except MissingInstructionInput CarryFlags :=
  match self.carry with
  | some v => .ok v
  | none => .error ⟨.Carry⟩

/-- Accessor returning the incoming overflow flags or the MissingInput
error.  Modelled from the spec: the lib.rs snapshot's impl_instr_try_get
block lacks this accessor although instr_models.rs calls it; the spec's
4.2 requires `require_overflow()` to return the field's value or fail
with MissingInput naming the register. -/
def InstructionInput.try_get_overflow (self : InstructionInput) :
    Except MissingInstructionInput OverflowFlags :=
  match self.overflow with
  | some v => .ok v
  | none => .error ⟨.Overflow⟩

/-- Sticky-so propagation, from instr_models.rs `propagate_so`: the output
so bit is forced true when the caller-supplied incoming so is true. -/
def propagate_so (overflow : OverflowFlags) (inputs : InstructionInput) :
    Except MissingInstructionInput OverflowFlags := do
  let incoming ← inputs.try_get_overflow
  if incoming.so then
    return { overflow with so := true }
  else
    return overflow

/-!
The instr_models.rs overflow-producing base functions all have the shape:
fetch ra and rb, compute a result word and this-operation overflow flags,
then emit rt together with the sticky-propagated overflow flags.  The
shared shape is split out as `mkOvBase` with one pure compute function per
opcode, translated verbatim from the source bodies.
-/

/-- Shared shape of the `-o` base model functions of instr_models.rs:
`rt` and `overflow` from a pure computation on ra and rb, with
propagate_so applied to the computed flags. -/
def mkOvBase (compute : Nat → Nat → Nat × OverflowFlags)
    (inputs : InstructionInput) : InstructionResult := do
  let ra ← inputs.try_get_ra
  let rb ← inputs.try_get_rb
  let (result, flags) := compute ra rb
  return { rt := some result,
           overflow := some (← propagate_so flags inputs) }

/-- Plain variant from the create_instr_variants_ov_cr macro: seed a fresh
default (so = false) overflow state, run the O variant, and strip the
overflow field from the output. -/
def mkPlain (fno : InstructionInput → InstructionResult)
    (inputs : InstructionInput) : InstructionResult := do
  let retval ← fno { inputs with overflow := some OverflowFlags.default }
  return { retval with overflow := none }

/-- O-dot variant from the create_instr_variants_ov_cr macro: run the O
variant and add cr0 derived from the result (viewed at the macro's iwidth)
and the resulting overflow's so bit.  The getD defaults model the source's
`.expect` calls on rt and overflow, which are always present in the ok
output of every base this macro is applied to. -/
def mkODot (iwidth : Nat → Int) (fno : InstructionInput → InstructionResult)
    (inputs : InstructionInput) : InstructionResult := do
  let retval ← fno inputs
  let result := retval.rt.getD 0
  let so := (retval.overflow.getD OverflowFlags.default).so
  return { retval with
           cr0 := some (ConditionRegister.from_signed_int (iwidth result) so) }

/-- Dot variant from the create_instr_variants_ov_cr macro: run the O-dot
variant, overwrite cr0's so bit with the caller-supplied incoming so, and
strip the overflow field.  The getD default models the source's `.expect`
on cr0, which the O-dot variant always sets. -/
def mkDot (iwidth : Nat → Int) (fno : InstructionInput → InstructionResult)
    (inputs : InstructionInput) : InstructionResult := do
  let retval ← mkODot iwidth fno inputs
  let cr0 := retval.cr0.getD ⟨false, false, false, false⟩
  let so := (← inputs.try_get_overflow).so
  return { retval with cr0 := some { cr0 with so := so }, overflow := none }

/-- Dot variant from the create_instr_variants_cr macro (no overflow
production): run the base function and add cr0 derived from the result
(viewed at the macro's iwidth) and the incoming overflow's so bit. -/
def mkCrDot (iwidth : Nat → Int) (fn : InstructionInput → InstructionResult)
    (inputs : InstructionInput) : InstructionResult := do
  let retval ← fn inputs
  let result := retval.rt.getD 0
  let so := (← inputs.try_get_overflow).so
  return { retval with
           cr0 := some (ConditionRegister.from_signed_int (iwidth result) so) }

/-- Computation of instr_models.rs `addo`: 64-bit signed overflowing add,
with the 32-bit overflow recomputed on the truncated operands. -/
def addo_compute (ra rb : Nat) : Nat × OverflowFlags :=
  let a := i64ofU64 ra
  let b := i64ofU64 rb
  let result := wrapI64 (a + b)
  let ov : Bool := decide (result ≠ a + b)
  let ov32 : Bool := decide (wrapI32 (wrapI32 a + wrapI32 b) ≠ wrapI32 a + wrapI32 b)
  (u64ofInt result, { so := ov, ov := ov, ov32 := ov32 })

/-- Computation of instr_models.rs `subfo`: rb minus ra, 64-bit signed
overflowing subtract, 32-bit overflow recomputed on truncated operands. -/
def subfo_compute (ra rb : Nat) : Nat × OverflowFlags :=
  let a := i64ofU64 ra
  let b := i64ofU64 rb
  let result := wrapI64 (b - a)
  let ov : Bool := decide (result ≠ b - a)
  let ov32 : Bool := decide (wrapI32 (wrapI32 b - wrapI32 a) ≠ wrapI32 b - wrapI32 a)
  (u64ofInt result, { so := ov, ov := ov, ov32 := ov32 })

/-- Computation of instr_models.rs `divdeo`: 128-bit extended signed
divide, dividend is ra shifted into the high half. -/
def divdeo_compute (ra rb : Nat) : Nat × OverflowFlags :=
  let dividend : Int := i64ofU64 ra * 2 ^ 64
  let divisor : Int := i64ofU64 rb
  if divisor = 0 ∨ (divisor = -1 ∧ dividend = -(2 ^ 127)) then
    (0, .from_overflow true)
  else
    let result128 := dividend.tdiv divisor
    if wrapI64 result128 ≠ result128 then
      (0, .from_overflow true)
    else
      (u64ofInt result128, .from_overflow false)

/-- Computation of instr_models.rs `divdeuo`: 128-bit extended unsigned
divide. -/
def divdeuo_compute (ra rb : Nat) : Nat × OverflowFlags :=
  let dividend : Nat := ra <<< 64
  let divisor : Nat := rb
  if divisor = 0 then
    (0, .from_overflow true)
  else
    let resultu128 := dividend / divisor
    if resultu128 > 2 ^ 64 - 1 then
      (0, .from_overflow true)
    else
      (resultu128, .from_overflow false)

/-- Computation of instr_models.rs `divdo`: 64-bit signed divide with the
divide-by-zero and MIN divided by minus-one edge policy. -/
def divdo_compute (ra rb : Nat) : Nat × OverflowFlags :=
  let dividend := i64ofU64 ra
  let divisor := i64ofU64 rb
  if divisor = 0 ∨ (divisor = -1 ∧ dividend = -(2 ^ 63)) then
    (0, .from_overflow true)
  else
    (u64ofInt (dividend.tdiv divisor), .from_overflow false)

/-- Computation of instr_models.rs `divduo`: 64-bit unsigned divide. -/
def divduo_compute (ra rb : Nat) : Nat × OverflowFlags :=
  if rb = 0 then
    (0, .from_overflow true)
  else
    (ra / rb, .from_overflow false)

/-- Computation of instr_models.rs `divweo`: 64-bit extended 32-bit signed
divide, dividend is ra's low word shifted into the high half. -/
def divweo_compute (ra rb : Nat) : Nat × OverflowFlags :=
  let dividend : Int := i32ofU64 ra * 2 ^ 32
  let divisor : Int := i32ofU64 rb
  if divisor = 0 ∨ (divisor = -1 ∧ dividend = -(2 ^ 63)) then
    (0, .from_overflow true)
  else
    let result64 := dividend.tdiv divisor
    if wrapI32 result64 ≠ result64 then
      (0, .from_overflow true)
    else
      (u32ofInt result64, .from_overflow false)

/-- Computation of instr_models.rs `divweuo`: extended 32-bit unsigned
divide. -/
def divweuo_compute (ra rb : Nat) : Nat × OverflowFlags :=
  let dividend : Nat := (ra % 2 ^ 32) <<< 32
  let divisor : Nat := rb % 2 ^ 32
  if divisor = 0 then
    (0, .from_overflow true)
  else
    let resultu64 := dividend / divisor
    if resultu64 > 2 ^ 32 - 1 then
      (0, .from_overflow true)
    else
      (resultu64 % 2 ^ 32, .from_overflow false)

/-- Computation of instr_models.rs `divwo`: 32-bit signed divide,
zero-extended into the 64-bit output. -/
def divwo_compute (ra rb : Nat) : Nat × OverflowFlags :=
  let dividend := i32ofU64 ra
  let divisor := i32ofU64 rb
  if divisor = 0 ∨ (divisor = -1 ∧ dividend = -(2 ^ 31)) then
    (0, .from_overflow true)
  else
    (u32ofInt (dividend.tdiv divisor), .from_overflow false)

/-- Computation of instr_models.rs `divwuo`: 32-bit unsigned divide. -/
def divwuo_compute (ra rb : Nat) : Nat × OverflowFlags :=
  let dividend := ra % 2 ^ 32
  let divisor := rb % 2 ^ 32
  if divisor = 0 then
    (0, .from_overflow true)
  else
    (dividend / divisor, .from_overflow false)

/-- Computation of instr_models.rs `mullwo`: 32-bit signed multiply in
sign-extended 64-bit intermediates; rt is the full wrapped 64-bit product
and overflow records whether it sign-extends from its low 32 bits. -/
def mullwo_compute (ra rb : Nat) : Nat × OverflowFlags :=
  let a := i32ofU64 ra
  let b := i32ofU64 rb
  let result := u64ofInt (wrapI64 (a * b))
  let overflow : Bool := decide (i32ofU64 result ≠ i64ofU64 result)
  (result, .from_overflow overflow)

/-- Computation of instr_models.rs `mulldo`: 64-bit signed wrapping
multiply, overflow iff the exact product does not fit in i64. -/
def mulldo_compute (ra rb : Nat) : Nat × OverflowFlags :=
  let a := i64ofU64 ra
  let b := i64ofU64 rb
  let result := u64ofInt (wrapI64 (a * b))
  let overflow : Bool := decide (wrapI64 (a * b) ≠ a * b)
  (result, .from_overflow overflow)

/-- Base O-variant model of add, instr_models.rs `addo`. -/
def addo : InstructionInput → InstructionResult := mkOvBase addo_compute

/-- Plain add, generated by create_instr_variants_ov_cr. -/
def add : InstructionInput → InstructionResult := mkPlain addo

/-- Dot add, generated by create_instr_variants_ov_cr. -/
def add_ : InstructionInput → InstructionResult := mkDot i64ofU64 addo

/-- O-dot add, generated by create_instr_variants_ov_cr. -/
def addo_ : InstructionInput → InstructionResult := mkODot i64ofU64 addo

/-- Base O-variant model of subf, instr_models.rs `subfo`. -/
def subfo : InstructionInput → InstructionResult := mkOvBase subfo_compute

/-- Plain subf. -/
def subf : InstructionInput → InstructionResult := mkPlain subfo

/-- Dot subf. -/
def subf_ : InstructionInput → InstructionResult := mkDot i64ofU64 subfo

/-- O-dot subf. -/
def subfo_ : InstructionInput → InstructionResult := mkODot i64ofU64 subfo

/-- Base O-variant model of divde, instr_models.rs `divdeo`. -/
def divdeo : InstructionInput → InstructionResult := mkOvBase divdeo_compute

/-- Plain divde. -/
def divde : InstructionInput → InstructionResult := mkPlain divdeo

/-- Dot divde. -/
def divde_ : InstructionInput → InstructionResult := mkDot i64ofU64 divdeo

/-- O-dot divde. -/
def divdeo_ : InstructionInput → InstructionResult := mkODot i64ofU64 divdeo

/-- Base O-variant model of divdeu, instr_models.rs `divdeuo`. -/
def divdeuo : InstructionInput → InstructionResult := mkOvBase divdeuo_compute

/-- Plain divdeu. -/
def divdeu : InstructionInput → InstructionResult := mkPlain divdeuo

/-- Dot divdeu. -/
def divdeu_ : InstructionInput → InstructionResult := mkDot i64ofU64 divdeuo

/-- O-dot divdeu. -/
def divdeuo_ : InstructionInput → InstructionResult := mkODot i64ofU64 divdeuo

/-- Base O-variant model of divd, instr_models.rs `divdo`. -/
def divdo : InstructionInput → InstructionResult := mkOvBase divdo_compute

/-- Plain divd. -/
def divd : InstructionInput → InstructionResult := mkPlain divdo

/-- Dot divd. -/
def divd_ : InstructionInput → InstructionResult := mkDot i64ofU64 divdo

/-- O-dot divd. -/
def divdo_ : InstructionInput → InstructionResult := mkODot i64ofU64 divdo

/-- Base O-variant model of divdu, instr_models.rs `divduo`. -/
def divduo : InstructionInput → InstructionResult := mkOvBase divduo_compute

/-- Plain divdu. -/
def divdu : InstructionInput → InstructionResult := mkPlain divduo

/-- Dot divdu. -/
def divdu_ : InstructionInput → InstructionResult := mkDot i64ofU64 divduo

/-- O-dot divdu. -/
def divduo_ : InstructionInput → InstructionResult := mkODot i64ofU64 divduo

/-- Base O-variant model of divwe, instr_models.rs `divweo`. -/
def divweo : InstructionInput → InstructionResult := mkOvBase divweo_compute

/-- Plain divwe. -/
def divwe : InstructionInput → InstructionResult := mkPlain divweo

/-- Dot divwe (the macro is instantiated at i64, per the source comment on
POWER9 compare behavior). -/
def divwe_ : InstructionInput → InstructionResult := mkDot i64ofU64 divweo

/-- O-dot divwe. -/
def divweo_ : InstructionInput → InstructionResult := mkODot i64ofU64 divweo

/-- Base O-variant model of divweu, instr_models.rs `divweuo`. -/
def divweuo : InstructionInput → InstructionResult := mkOvBase divweuo_compute

/-- Plain divweu. -/
def divweu : InstructionInput → InstructionResult := mkPlain divweuo

/-- Dot divweu. -/
def divweu_ : InstructionInput → InstructionResult := mkDot i64ofU64 divweuo

/-- O-dot divweu. -/
def divweuo_ : InstructionInput → InstructionResult := mkODot i64ofU64 divweuo

/-- Base O-variant model of divw, instr_models.rs `divwo`. -/
def divwo : InstructionInput → InstructionResult := mkOvBase divwo_compute

/-- Plain divw. -/
def divw : InstructionInput → InstructionResult := mkPlain divwo

/-- Dot divw. -/
def divw_ : InstructionInput → InstructionResult := mkDot i64ofU64 divwo

/-- O-dot divw. -/
def divwo_ : InstructionInput → InstructionResult := mkODot i64ofU64 divwo

/-- Base O-variant model of divwu, instr_models.rs `divwuo`. -/
def divwuo : InstructionInput → InstructionResult := mkOvBase divwuo_compute

/-- Plain divwu. -/
def divwu : InstructionInput → InstructionResult := mkPlain divwuo

/-- Dot divwu. -/
def divwu_ : InstructionInput → InstructionResult := mkDot i64ofU64 divwuo

/-- O-dot divwu. -/
def divwuo_ : InstructionInput → InstructionResult := mkODot i64ofU64 divwuo

/-- Model of instr_models.rs `modsd`: 64-bit signed remainder with the
divide edge policy, no overflow output. -/
def modsd (inputs : InstructionInput) : InstructionResult := do
  let ra ← inputs.try_get_ra
  let rb ← inputs.try_get_rb
  let dividend := i64ofU64 ra
  let divisor := i64ofU64 rb
  let result : Nat :=
    if divisor = 0 ∨ (divisor = -1 ∧ dividend = -(2 ^ 63)) then 0
    else u64ofInt (dividend.tmod divisor)
  return { rt := some result }

/-- Model of instr_models.rs `modud`: 64-bit unsigned remainder. -/
def modud (inputs : InstructionInput) : InstructionResult := do
  let ra ← inputs.try_get_ra
  let rb ← inputs.try_get_rb
  let result : Nat := if rb = 0 then 0 else ra % rb
  return { rt := some result }

/-- Model of instr_models.rs `modsw`: 32-bit signed remainder. -/
def modsw (inputs : InstructionInput) : InstructionResult := do
  let ra ← inputs.try_get_ra
  let rb ← inputs.try_get_rb
  let dividend := i32ofU64 ra
  let divisor := i32ofU64 rb
  let result : Nat :=
    if divisor = 0 ∨ (divisor = -1 ∧ dividend = -(2 ^ 31)) then 0
    else u64ofInt (dividend.tmod divisor)
  return { rt := some result }

/-- Model of instr_models.rs `moduw`: 32-bit unsigned remainder. -/
def moduw (inputs : InstructionInput) : InstructionResult := do
  let ra ← inputs.try_get_ra
  let rb ← inputs.try_get_rb
  let dividend := ra % 2 ^ 32
  let divisor := rb % 2 ^ 32
  let result : Nat := if divisor = 0 then 0 else dividend % divisor
  return { rt := some result }

/-- Base O-variant model of mullw, instr_models.rs `mullwo`. -/
def mullwo : InstructionInput → InstructionResult := mkOvBase mullwo_compute

/-- Plain mullw. -/
def mullw : InstructionInput → InstructionResult := mkPlain mullwo

/-- Dot mullw. -/
def mullw_ : InstructionInput → InstructionResult := mkDot i64ofU64 mullwo

/-- O-dot mullw. -/
def mullwo_ : InstructionInput → InstructionResult := mkODot i64ofU64 mullwo

/-- Model of instr_models.rs `mulhw`: signed 32-bit multiply high word,
computed in sign-extended 64-bit intermediates, the high word duplicated
into both halves of the 64-bit output. -/
def mulhw (inputs : InstructionInput) : InstructionResult := do
  let ra ← inputs.try_get_ra
  let rb ← inputs.try_get_rb
  let a := i32ofU64 ra
  let b := i32ofU64 rb
  let result : Int := a * b / 2 ^ 32
  let result1 : Nat := u32ofInt result
  let result2 : Nat := result1 ||| result1 <<< 32
  return { rt := some result2 }

/-- Dot mulhw, generated by create_instr_variants_cr at iwidth i32. -/
def mulhw_ : InstructionInput → InstructionResult := mkCrDot i32ofU64 mulhw

/-- Model of instr_models.rs `mulhwu`: unsigned 32-bit multiply high word,
duplicated into both halves of the 64-bit output. -/
def mulhwu (inputs : InstructionInput) : InstructionResult := do
  let ra ← inputs.try_get_ra
  let rb ← inputs.try_get_rb
  let a := ra % 2 ^ 32
  let b := rb % 2 ^ 32
  let result : Nat := a * b / 2 ^ 32
  let result1 : Nat := result % 2 ^ 32
  let result2 : Nat := result1 ||| result1 <<< 32
  return { rt := some result2 }

/-- Dot mulhwu, generated by create_instr_variants_cr at iwidth i32. -/
def mulhwu_ : InstructionInput → InstructionResult := mkCrDot i32ofU64 mulhwu

/-- Base O-variant model of mulld, instr_models.rs `mulldo`. -/
def mulldo : InstructionInput → InstructionResult := mkOvBase mulldo_compute

/-- Plain mulld. -/
def mulld : InstructionInput → InstructionResult := mkPlain mulldo

/-- Dot mulld. -/
def mulld_ : InstructionInput → InstructionResult := mkDot i64ofU64 mulldo

/-- O-dot mulld. -/
def mulldo_ : InstructionInput → InstructionResult := mkODot i64ofU64 mulldo

/-- Model of instr_models.rs `mulhd`: signed 64-bit multiply high word via
a 128-bit intermediate. -/
def mulhd (inputs : InstructionInput) : InstructionResult := do
  let ra ← inputs.try_get_ra
  let rb ← inputs.try_get_rb
  let a := i64ofU64 ra
  let b := i64ofU64 rb
  let result := wrapI64 (a * b / 2 ^ 64)
  return { rt := some (u64ofInt result) }

/-- Dot mulhd, generated by create_instr_variants_cr at iwidth i64. -/
def mulhd_ : InstructionInput → InstructionResult := mkCrDot i64ofU64 mulhd

/-- Model of instr_models.rs `mulhdu`: unsigned 64-bit multiply high word
via a 128-bit intermediate. -/
def mulhdu (inputs : InstructionInput) : InstructionResult := do
  let ra ← inputs.try_get_ra
  let rb ← inputs.try_get_rb
  let result : Nat := ra * rb / 2 ^ 64 % 2 ^ 64
  return { rt := some result }

/-- Dot mulhdu, generated by create_instr_variants_cr at iwidth i64. -/
def mulhdu_ : InstructionInput → InstructionResult := mkCrDot i64ofU64 mulhdu

/-- Model of instr_models.rs `maddhd`: signed multiply-add high word via a
128-bit intermediate. -/
def maddhd (inputs : InstructionInput) : InstructionResult := do
  let ra ← inputs.try_get_ra
  let rb ← inputs.try_get_rb
  let rc ← inputs.try_get_rc
  let a := i64ofU64 ra
  let b := i64ofU64 rb
  let c := i64ofU64 rc
  let result := u64ofInt ((a * b + c) / 2 ^ 64)
  return { rt := some result }

/-- Model of instr_models.rs `maddhdu`: unsigned multiply-add high word
via a 128-bit intermediate. -/
def maddhdu (inputs : InstructionInput) : InstructionResult := do
  let ra ← inputs.try_get_ra
  let rb ← inputs.try_get_rb
  let rc ← inputs.try_get_rc
  let result : Nat := (ra * rb + rc) / 2 ^ 64 % 2 ^ 64
  return { rt := some result }

/-- Model of instr_models.rs `maddld`: low 64 bits of the multiply-add,
wrapping 64-bit arithmetic. -/
def maddld (inputs : InstructionInput) : InstructionResult := do
  let ra ← inputs.try_get_ra
  let rb ← inputs.try_get_rb
  let rc ← inputs.try_get_rc
  let a := i64ofU64 ra
  let b := i64ofU64 rb
  let c := i64ofU64 rc
  let result := u64ofInt (wrapI64 (wrapI64 (a * b) + c))
  return { rt := some result }

/-- Opcode registry keys, from the instructions! declarations in lib.rs. -/
inductive Instr where
  | Add | AddO | Add_ | AddO_
  | SubF | SubFO | SubF_ | SubFO_
  | DivDE | DivDEO | DivDE_ | DivDEO_
  | DivDEU | DivDEUO | DivDEU_ | DivDEUO_
  | DivD | DivDO | DivD_ | DivDO_
  | DivDU | DivDUO | DivDU_ | DivDUO_
  | DivWE | DivWEO | DivWE_ | DivWEO_
  | DivWEU | DivWEUO | DivWEU_ | DivWEUO_
  | DivW | DivWO | DivW_ | DivWO_
  | DivWU | DivWUO | DivWU_ | DivWUO_
  | ModSD | ModUD | ModSW | ModUW
  | MulLW | MulLWO | MulLW_ | MulLWO_
  | MulHW | MulHW_
  | MulHWU | MulHWU_
  | MulLD | MulLDO | MulLD_ | MulLDO_
  | MulHD | MulHD_
  | MulHDU | MulHDU_
  | MAddHD | MAddHDU | MAddLD
  deriving DecidableEq

/-- Declared input-register list per opcode, from the instructions!
declarations in lib.rs expanded by the proc-macro's map_input_registers:
every declaration lists (Ra, Rb) except the madd forms, which list
(Ra, Rb, Rc).  No declaration lists Carry or Overflow. -/
def Instr.get_used_input_registers : Instr → List InstructionInputRegister
  | .MAddHD | .MAddHDU | .MAddLD => [.Ra, .Rb, .Rc]
  | _ => [.Ra, .Rb]

/-- Model-function handle per opcode, from the proc-macro generated
Instr::get_model_fn match. -/
def Instr.get_model_fn : Instr → InstructionInput → InstructionResult
  | .Add => add
  | .AddO => addo
  | .Add_ => add_
  | .AddO_ => addo_
  | .SubF => subf
  | .SubFO => subfo
  | .SubF_ => subf_
  | .SubFO_ => subfo_
  | .DivDE => divde
  | .DivDEO => divdeo
  | .DivDE_ => divde_
  | .DivDEO_ => divdeo_
  | .DivDEU => divdeu
  | .DivDEUO => divdeuo
  | .DivDEU_ => divdeu_
  | .DivDEUO_ => divdeuo_
  | .DivD => divd
  | .DivDO => divdo
  | .DivD_ => divd_
  | .DivDO_ => divdo_
  | .DivDU => divdu
  | .DivDUO => divduo
  | .DivDU_ => divdu_
  | .DivDUO_ => divduo_
  | .DivWE => divwe
  | .DivWEO => divweo
  | .DivWE_ => divwe_
  | .DivWEO_ => divweo_
  | .DivWEU => divweu
  | .DivWEUO => divweuo
  | .DivWEU_ => divweu_
  | .DivWEUO_ => divweuo_
  | .DivW => divw
  | .DivWO => divwo
  | .DivW_ => divw_
  | .DivWO_ => divwo_
  | .DivWU => divwu
  | .DivWUO => divwuo
  | .DivWU_ => divwu_
  | .DivWUO_ => divwuo_
  | .ModSD => modsd
  | .ModUD => modud
  | .ModSW => modsw
  | .ModUW => moduw
  | .MulLW => mullw
  | .MulLWO => mullwo
  | .MulLW_ => mullw_
  | .MulLWO_ => mullwo_
  | .MulHW => mulhw
  | .MulHW_ => mulhw_
  | .MulHWU => mulhwu
  | .MulHWU_ => mulhwu_
  | .MulLD => mulld
  | .MulLDO => mulldo
  | .MulLD_ => mulld_
  | .MulLDO_ => mulldo_
  | .MulHD => mulhd
  | .MulHD_ => mulhd_
  | .MulHDU => mulhdu
  | .MulHDU_ => mulhdu_
  | .MAddHD => maddhd
  | .MAddHDU => maddhdu
  | .MAddLD => maddld

/-- Presence test of a logical input register in an input record, used to
state that an input populates a declared register. -/
def InstructionInput.supplies (self : InstructionInput) :
    InstructionInputRegister → Bool
  | .Ra => self.ra.isSome
  | .Rb => self.rb.isSome
  | .Rc => self.rc.isSome
  | .Carry => self.carry.isSome
  | .Overflow => self.overflow.isSome

/-!
Hex codec of serde_hex.rs.  Serialization is Rust's format!("\x7b:#X\x7d"):
the 0x prefix followed by uppercase hexadecimal digits of the value.
Deserialization checks the 0x prefix and hands the remaining characters to
u64::from_str_radix(.., 16), which per its documentation accepts an
optional leading plus sign followed by one or more hexadecimal digits (of
either case) and fails on an empty string, a non-digit character, or a
value that does not fit in the target type.  Strings are modelled through
their character lists.
-/

/-- Uppercase hexadecimal digit character for a value below 16. -/
def hexDigitChar (n : Nat) : Char :=
  if n < 10 then Char.ofNat (48 + n) else Char.ofNat (55 + n)

/-- Uppercase hexadecimal digit characters of a value, most significant
first, as produced by Rust's :X formatting (a single 0 for zero). -/
def hexChars (n : Nat) : List Char :=
  if _h : n < 16 then
    [hexDigitChar n]
  else
    hexChars (n / 16) ++ [hexDigitChar (n % 16)]
  decreasing_by
    exact Nat.div_lt_self (by omega) (by omega)

/-- Serialization of a u64 report field, from serde_hex.rs
impl_hex_for_uint: the 0x prefix followed by the uppercase hex digits. -/
def serializeU64 (n : Nat) : String :=
  ⟨'0' :: 'x' :: hexChars n⟩

/-- Numeric value of a hexadecimal digit character, either case, as
accepted by from_str_radix at radix 16. -/
def hexDigitVal (c : Char) : Option Nat :=
  if '0' ≤ c ∧ c ≤ '9' then some (c.toNat - 48)
  else if 'a' ≤ c ∧ c ≤ 'f' then some (c.toNat - 87)
  else if 'A' ≤ c ∧ c ≤ 'F' then some (c.toNat - 55)
  else none

/-- Digit-accumulation loop of u64::from_str_radix at radix 16: fails on a
non-digit character and on accumulator overflow past the u64 range. -/
def parseHexDigits : List Char → Nat → Except String Nat
  | [], acc => .ok acc
  | c :: rest, acc =>
    match hexDigitVal c with
    | none => .error "invalid digit found in string"
    | some d =>
      if 16 * acc + d < 2 ^ 64 then
        parseHexDigits rest (16 * acc + d)
      else
        .error "number too large to fit in target type"

/-- Entry behavior of u64::from_str_radix at radix 16, modelled from its
documentation: an optional leading plus sign followed by one or more
digits; the empty string and a bare sign are errors. -/
def fromStrRadix16U64 (cs : List Char) : Except String Nat :=
  match cs with
  | [] => .error "cannot parse integer from empty string"
  | '+' :: rest =>
    if rest.isEmpty then .error "invalid digit found in string"
    else parseHexDigits rest 0
  | _ => parseHexDigits cs 0

/-- Deserialization of a u64 report field, from serde_hex.rs
impl_hex_for_uint: require the 0x prefix, then parse the remaining
characters as hexadecimal. -/
def deserializeU64 (text : String) : Except String Nat :=
  match text.data with
  | '0' :: 'x' :: rest => fromStrRadix16U64 rest
  | _ => .error "hexadecimal field must start with 0x"

/-- Fixed value domain of the differential harness, from main.rs
TEST_VALUES. -/
def TEST_VALUES : List Nat :=
  [0x0,
   0x1,
   0x2,
   0xFFFFFFFFFFFFFFFF,
   0xFFFFFFFFFFFFFFFE,
   0x7FFFFFFFFFFFFFFF,
   0x8000000000000000,
   0x1234567800000000,
   0x1234567880000000,
   0x12345678FFFFFFFF,
   0x123456787FFFFFFF]

/-!
Helper lemmas about the combinator layer shared by several claims.
-/

/-- Evaluation of propagate_so when the incoming overflow is present: the
so bit becomes the disjunction of the incoming and computed so bits. -/
theorem propagate_so_eq (fl : OverflowFlags) (x : InstructionInput)
    (f : OverflowFlags) (hf : x.overflow = some f) :
    propagate_so fl x = .ok { fl with so := f.so || fl.so } := by
  unfold propagate_so InstructionInput.try_get_overflow
  rw [hf]
  cases hso : f.so <;>
    simp [hso, Bind.bind, Except.bind, pure, Except.pure]

/-- Forward evaluation of an overflow-producing base model on an input
that supplies ra, rb and the incoming overflow flags. -/
theorem mkOvBase_ok {c : Nat → Nat → Nat × OverflowFlags}
    {x : InstructionInput} {a b : Nat} {f : OverflowFlags}
    (hra : x.ra = some a) (hrb : x.rb = some b)
    (hov : x.overflow = some f) :
    mkOvBase c x =
      .ok { rt := some (c a b).1,
            overflow := some { (c a b).2 with
                               so := f.so || ((c a b).2).so } } := by
  unfold mkOvBase InstructionInput.try_get_ra InstructionInput.try_get_rb
  rw [hra, hrb]
  simp only [Bind.bind, Except.bind]
  rcases hc : c a b with ⟨r, fl⟩
  rw [propagate_so_eq _ _ _ hov]
  simp [pure, Except.pure]

/-- Inversion of a successful overflow-producing base model run: the input
supplied ra, rb and the incoming overflow flags, and the output is rt plus
the sticky-propagated flags. -/
theorem mkOvBase_inv {c : Nat → Nat → Nat × OverflowFlags}
    {x : InstructionInput} {out : InstructionOutput}
    (hout : mkOvBase c x = .ok out) :
    ∃ a b f, x.ra = some a ∧ x.rb = some b ∧ x.overflow = some f ∧
      out = { rt := some (c a b).1,
              overflow := some { (c a b).2 with
                                 so := f.so || ((c a b).2).so } } := by
  unfold mkOvBase InstructionInput.try_get_ra InstructionInput.try_get_rb
    at hout
  cases hra : x.ra with
  | none => rw [hra] at hout; simp [Bind.bind, Except.bind] at hout
  | some a =>
    rw [hra] at hout
    cases hrb : x.rb with
    | none => rw [hrb] at hout; simp [Bind.bind, Except.bind] at hout
    | some b =>
      rw [hrb] at hout
      simp only [Bind.bind, Except.bind] at hout
      rcases hc : c a b with ⟨r, fl⟩
      rw [hc] at hout
      cases hov : x.overflow with
      | none =>
        unfold propagate_so InstructionInput.try_get_overflow at hout
        rw [hov] at hout
        simp [Bind.bind, Except.bind] at hout
      | some f =>
        rw [propagate_so_eq _ _ _ hov] at hout
        simp [Bind.bind, Except.bind, pure, Except.pure] at hout
        refine ⟨a, b, f, rfl, rfl, rfl, ?_⟩
        rw [hc]
        exact hout.symm

/-- Inversion of a successful O-dot variant run over an overflow-producing
base, exposing the cr0 field derived from the result and the resulting
(sticky) so bit. -/
theorem mkODot_inv {iw : Nat → Int} {c : Nat → Nat → Nat × OverflowFlags}
    {x : InstructionInput} {out : InstructionOutput}
    (hout : mkODot iw (mkOvBase c) x = .ok out) :
    ∃ a b f, x.ra = some a ∧ x.rb = some b ∧ x.overflow = some f ∧
      out = { rt := some (c a b).1,
              overflow := some { (c a b).2 with
                                 so := f.so || ((c a b).2).so },
              cr0 := some (.from_signed_int (iw (c a b).1)
                             (f.so || ((c a b).2).so)) } := by
  unfold mkODot at hout
  cases hbase : mkOvBase c x with
  | error e => rw [hbase] at hout; simp [Bind.bind, Except.bind] at hout
  | ok out0 =>
    obtain ⟨a, b, f, hra, hrb, hov, rfl⟩ := mkOvBase_inv hbase
    rw [hbase] at hout
    simp [Bind.bind, Except.bind, pure, Except.pure] at hout
    exact ⟨a, b, f, hra, hrb, hov, hout.symm⟩

/-- Inversion of a successful dot variant run over an overflow-producing
base: the output keeps rt, drops overflow, and carries cr0 whose so bit is
the caller-supplied incoming so. -/
theorem mkDot_inv {iw : Nat → Int} {c : Nat → Nat → Nat × OverflowFlags}
    {x : InstructionInput} {out : InstructionOutput}
    (hout : mkDot iw (mkOvBase c) x = .ok out) :
    ∃ a b f, x.ra = some a ∧ x.rb = some b ∧ x.overflow = some f ∧
      out = { rt := some (c a b).1,
              cr0 := some (.from_signed_int (iw (c a b).1) f.so) } := by
  unfold mkDot at hout
  cases hodot : mkODot iw (mkOvBase c) x with
  | error e => rw [hodot] at hout; simp [Bind.bind, Except.bind] at hout
  | ok retval =>
    obtain ⟨a, b, f, hra, hrb, hov, rfl⟩ := mkODot_inv hodot
    rw [hodot] at hout
    unfold InstructionInput.try_get_overflow at hout
    rw [hov] at hout
    simp [Bind.bind, Except.bind, pure, Except.pure] at hout
    exact ⟨a, b, f, hra, hrb, hov, hout.symm⟩

/-!
Claim theorems.
-/

/-- C1: the claim states that for every opcode, MissingInput fires iff a
register in the declared list is absent.  The code contradicts this: the
registry entry for addo declares [Ra, Rb] only, yet the addo model (via
propagate_so) also requires the incoming overflow flags, so the model
fails with MissingInput(Overflow) on an input that supplies every declared
register.  This theorem exhibits the failing input. -/
theorem c1_addo_requires_undeclared_overflow :
    Instr.get_used_input_registers .AddO = [.Ra, .Rb] ∧
    (Instr.get_used_input_registers .AddO).all
      (fun r => InstructionInput.supplies { ra := some 0, rb := some 0 } r)
      = true ∧
    Instr.get_model_fn .AddO { ra := some 0, rb := some 0 } =
      .error { input := .Overflow } :=
  ⟨rfl, by decide, rfl⟩

/-- C5 counterexample: the claim states that plain divd, on the divide
edge cases, outputs rt = 0 together with a populated overflow field whose
overflow is true.  In the code the plain variant strips the overflow field
from its output: at dividend i64::MIN, divisor -1, the output has rt = 0
and NO overflow field. -/
theorem c5_counterexample :
    divd { ra := some (2 ^ 63), rb := some (2 ^ 64 - 1) } =
      .ok { rt := some 0 } ∧
    ({ rt := some 0 } : InstructionOutput).overflow = none :=
  ⟨rfl, rfl⟩

/-- C5 amended: plain divd at dividend i64::MIN, divisor -1, and at
dividend 7, divisor 0, yields rt = 0 with the overflow field absent from
the output (the edge-case overflow is visible only in the divdo
variants). -/
theorem c5_amended_plain_divd_edges :
    divd { ra := some (2 ^ 63), rb := some (2 ^ 64 - 1) } =
      .ok { rt := some 0 } ∧
    divd { ra := some 7, rb := some 0 } = .ok { rt := some 0 } :=
  ⟨rfl, rfl⟩

/-- C7: both flag groups decode back from their own encoding, and the two
groups occupy disjoint bits of the status word: decoding each group from
the bitwise or of both encodings recovers exactly the original records. -/
theorem c7_xer_roundtrip_disjoint :
    (∀ f : OverflowFlags, OverflowFlags.from_xer f.to_xer = f) ∧
    (∀ g : CarryFlags, CarryFlags.from_xer g.to_xer = g) ∧
    (∀ (f : OverflowFlags) (g : CarryFlags),
      OverflowFlags.from_xer (f.to_xer ||| g.to_xer) = f ∧
      CarryFlags.from_xer (f.to_xer ||| g.to_xer) = g) := by
  decide

/-- C9 counterexample: the claim states the harness value domain contains
at minimum the nine constants including i64::MAX - 1 and i64::MIN + 1;
neither of those two is in TEST_VALUES. -/
theorem c9_counterexample :
    decide ((0x7FFFFFFFFFFFFFFE : Nat) ∈ TEST_VALUES) = false ∧
    decide ((0x8000000000000001 : Nat) ∈ TEST_VALUES) = false := by
  decide

/-- C9 amended: the harness value domain contains 0, 1, 2, u64::MAX,
u64::MAX - 1, i64::MAX and i64::MIN, plus four values with the 0x12345678
pattern crossing the 32-bit boundary; it does not contain i64::MAX - 1 or
i64::MIN + 1. -/
theorem c9_amended_test_values :
    (0x0 : Nat) ∈ TEST_VALUES ∧
    (0x1 : Nat) ∈ TEST_VALUES ∧
    (0x2 : Nat) ∈ TEST_VALUES ∧
    (0xFFFFFFFFFFFFFFFF : Nat) ∈ TEST_VALUES ∧
    (0xFFFFFFFFFFFFFFFE : Nat) ∈ TEST_VALUES ∧
    (0x7FFFFFFFFFFFFFFF : Nat) ∈ TEST_VALUES ∧
    (0x8000000000000000 : Nat) ∈ TEST_VALUES ∧
    (0x1234567800000000 : Nat) ∈ TEST_VALUES ∧
    (0x1234567880000000 : Nat) ∈ TEST_VALUES ∧
    (0x12345678FFFFFFFF : Nat) ∈ TEST_VALUES ∧
    (0x123456787FFFFFFF : Nat) ∈ TEST_VALUES := by
  decide

/-- Forward evaluation of a plain variant over an overflow-producing base:
the fresh so = false state is seeded and the overflow output stripped. -/
theorem mkPlain_ok {c : Nat → Nat → Nat × OverflowFlags}
    {x : InstructionInput} {a b : Nat}
    (hra : x.ra = some a) (hrb : x.rb = some b) :
    mkPlain (mkOvBase c) x = .ok { rt := some (c a b).1 } := by
  unfold mkPlain
  rw [mkOvBase_ok (c := c)
    (x := { x with overflow := some OverflowFlags.default })
    (a := a) (b := b) hra hrb rfl]
  simp [Bind.bind, Except.bind, pure, Except.pure]

/-- C2: for the divd/divdo family, on any pair of u64 register inputs,
the divisor 0 and i64::MIN divided by -1 cases return rt = 0 with the
this-operation overflow bit true, and every other pair returns the exact
truncating signed quotient with the this-operation overflow bit false;
the plain divd returns the same rt with no overflow output. -/
theorem c2_divdo_semantics :
    ∀ ra rb : Nat, ra < 2 ^ 64 → rb < 2 ^ 64 →
    ∀ (f : OverflowFlags) (x : InstructionInput),
      x.ra = some ra → x.rb = some rb → x.overflow = some f →
      ∃ out o, divdo x = .ok out ∧ out.overflow = some o ∧
        ((i64ofU64 rb = 0 ∨ (i64ofU64 rb = -1 ∧ i64ofU64 ra = -(2 ^ 63))) →
          out.rt = some 0 ∧ o.ov = true) ∧
        (¬(i64ofU64 rb = 0 ∨ (i64ofU64 rb = -1 ∧ i64ofU64 ra = -(2 ^ 63))) →
          out.rt = some (u64ofInt ((i64ofU64 ra).tdiv (i64ofU64 rb))) ∧
            o.ov = false) ∧
        ∃ out2, divd x = .ok out2 ∧ out2.rt = out.rt ∧
          out2.overflow = none := by
  intro ra rb hra64 hrb64 f x hra hrb hov
  refine ⟨_, _, mkOvBase_ok hra hrb hov, rfl, ?_, ?_, _, mkPlain_ok hra hrb,
    ?_, rfl⟩
  · intro hedge
    unfold divdo_compute
    rw [if_pos hedge]
    exact ⟨rfl, rfl⟩
  · intro hedge
    unfold divdo_compute
    rw [if_neg hedge]
    exact ⟨rfl, rfl⟩
  · rfl

/-- C2 witness: the edge pair dividend i64::MIN, divisor -1. -/
theorem c2_witness :
    ∃ out o,
      divdo { ra := some (2 ^ 63), rb := some (2 ^ 64 - 1), rc := none,
              carry := none, overflow := some ⟨false, false, false⟩ } =
        .ok out ∧
      out.overflow = some o ∧
      ((i64ofU64 (2 ^ 64 - 1) = 0 ∨
          (i64ofU64 (2 ^ 64 - 1) = -1 ∧ i64ofU64 (2 ^ 63) = -(2 ^ 63))) →
        out.rt = some 0 ∧ o.ov = true) ∧
      (¬(i64ofU64 (2 ^ 64 - 1) = 0 ∨
          (i64ofU64 (2 ^ 64 - 1) = -1 ∧ i64ofU64 (2 ^ 63) = -(2 ^ 63))) →
        out.rt = some (u64ofInt
          ((i64ofU64 (2 ^ 63)).tdiv (i64ofU64 (2 ^ 64 - 1)))) ∧
          o.ov = false) ∧
      ∃ out2,
        divd { ra := some (2 ^ 63), rb := some (2 ^ 64 - 1), rc := none,
               carry := none, overflow := some ⟨false, false, false⟩ } =
          .ok out2 ∧ out2.rt = out.rt ∧ out2.overflow = none :=
  c2_divdo_semantics (2 ^ 63) (2 ^ 64 - 1) (by norm_num) (by norm_num)
    ⟨false, false, false⟩
    { ra := some (2 ^ 63), rb := some (2 ^ 64 - 1), rc := none,
      carry := none, overflow := some ⟨false, false, false⟩ }
    rfl rfl rfl

/-- C4: every O-variant base model is sticky in so: on any successful run
with the incoming overflow flags present, the output overflow record o
satisfies o.so = incoming.so || o.ov, where o.ov is the this-operation
overflow; in particular incoming so = true forces output so = true. -/
theorem c4_sticky_so :
    ∀ fno ∈ [addo, subfo, divdeo, divdeuo, divdo, divduo, divweo,
             divweuo, divwo, divwuo, mullwo, mulldo],
    ∀ (x : InstructionInput) (f : OverflowFlags) (out : InstructionOutput),
      x.overflow = some f → fno x = .ok out →
      ∃ o, out.overflow = some o ∧ o.so = (f.so || o.ov) := by
  have key : ∀ (c : Nat → Nat → Nat × OverflowFlags),
      (∀ a b, ((c a b).2).so = ((c a b).2).ov) →
      ∀ (x : InstructionInput) (f : OverflowFlags)
        (out : InstructionOutput),
        x.overflow = some f → mkOvBase c x = .ok out →
        ∃ o, out.overflow = some o ∧ o.so = (f.so || o.ov) := by
    intro c hc x f out hov hout
    obtain ⟨a, b, f2, _, _, hov2, rfl⟩ := mkOvBase_inv hout
    rw [hov] at hov2
    injection hov2 with hf
    subst hf
    refine ⟨_, rfl, ?_⟩
    have h1 : ({ (c a b).2 with so := f.so || ((c a b).2).so } :
        OverflowFlags).so = (f.so || ((c a b).2).so) := rfl
    have h2 : ({ (c a b).2 with so := f.so || ((c a b).2).so } :
        OverflowFlags).ov = ((c a b).2).ov := rfl
    rw [h1, h2, hc a b]
  intro fno hmem
  simp only [List.mem_cons, List.not_mem_nil, or_false] at hmem
  rcases hmem with rfl | rfl | rfl | rfl | rfl | rfl | rfl | rfl | rfl |
    rfl | rfl | rfl
  · exact key addo_compute (fun a b => rfl)
  · exact key subfo_compute (fun a b => rfl)
  · exact key divdeo_compute
      (fun a b => by simp only [divdeo_compute]; split_ifs <;> rfl)
  · exact key divdeuo_compute
      (fun a b => by simp only [divdeuo_compute]; split_ifs <;> rfl)
  · exact key divdo_compute
      (fun a b => by simp only [divdo_compute]; split_ifs <;> rfl)
  · exact key divduo_compute
      (fun a b => by simp only [divduo_compute]; split_ifs <;> rfl)
  · exact key divweo_compute
      (fun a b => by simp only [divweo_compute]; split_ifs <;> rfl)
  · exact key divweuo_compute
      (fun a b => by simp only [divweuo_compute]; split_ifs <;> rfl)
  · exact key divwo_compute
      (fun a b => by simp only [divwo_compute]; split_ifs <;> rfl)
  · exact key divwuo_compute
      (fun a b => by simp only [divwuo_compute]; split_ifs <;> rfl)
  · exact key mullwo_compute (fun a b => rfl)
  · exact key mulldo_compute (fun a b => rfl)

/-- C4 witness: addo with incoming so = true and a non-overflowing add
still reports so = true. -/
theorem c4_witness :
    ∃ o, ({ rt := some 2, overflow := some ⟨true, false, false⟩ } :
        InstructionOutput).overflow = some o ∧ o.so = (true || o.ov) :=
  c4_sticky_so addo (by simp)
    { ra := some 1, rb := some 1, overflow := some ⟨true, false, false⟩ }
    ⟨true, false, false⟩ _ rfl rfl

/-- C3 counterexample: the claim states the dot variant's cr0 so bit is
the O variant's resulting overflow so.  At ra = rb = i64::MIN with
incoming so = false, addo reports resulting so = true, but the dot
variant's cr0 carries so = false (the incoming so, copied verbatim). -/
theorem c3_counterexample :
    add_ { ra := some (2 ^ 63), rb := some (2 ^ 63),
           overflow := some ⟨false, false, false⟩ } =
      .ok { rt := some 0, cr0 := some ⟨false, false, true, false⟩ } ∧
    addo { ra := some (2 ^ 63), rb := some (2 ^ 63),
           overflow := some ⟨false, false, false⟩ } =
      .ok { rt := some 0, overflow := some ⟨true, true, false⟩ } ∧
    decide ((⟨false, false, true, false⟩ : ConditionRegister) =
      ConditionRegister.from_signed_int (i64ofU64 0) true) = false :=
  ⟨rfl, rfl, by decide⟩

/-- C3 amended: for every overflow-variant family, the dot variant's
output cr0 equals ConditionRegister::from_signed(rt, so) where so is the
caller-supplied INCOMING overflow so bit (copied verbatim, not the O
variant's resulting so), and the dot output carries no overflow field. -/
theorem c3_amended_dot_cr0 :
    ∀ fdot ∈ [add_, subf_, divde_, divdeu_, divd_, divdu_, divwe_,
              divweu_, divw_, divwu_, mullw_, mulld_],
    ∀ (x : InstructionInput) (f : OverflowFlags) (out : InstructionOutput),
      x.overflow = some f → fdot x = .ok out →
      ∃ r, out.rt = some r ∧
        out.cr0 = some (.from_signed_int (i64ofU64 r) f.so) ∧
        out.overflow = none := by
  have key : ∀ (c : Nat → Nat → Nat × OverflowFlags)
      (x : InstructionInput) (f : OverflowFlags) (out : InstructionOutput),
      x.overflow = some f → mkDot i64ofU64 (mkOvBase c) x = .ok out →
      ∃ r, out.rt = some r ∧
        out.cr0 = some (.from_signed_int (i64ofU64 r) f.so) ∧
        out.overflow = none := by
    intro c x f out hov hout
    obtain ⟨a, b, f2, _, _, hov2, rfl⟩ := mkDot_inv hout
    rw [hov] at hov2
    injection hov2 with hf
    subst hf
    exact ⟨_, rfl, rfl, rfl⟩
  intro fdot hmem
  simp only [List.mem_cons, List.not_mem_nil, or_false] at hmem
  rcases hmem with rfl | rfl | rfl | rfl | rfl | rfl | rfl | rfl | rfl |
    rfl | rfl | rfl
  · exact key addo_compute
  · exact key subfo_compute
  · exact key divdeo_compute
  · exact key divdeuo_compute
  · exact key divdo_compute
  · exact key divduo_compute
  · exact key divweo_compute
  · exact key divweuo_compute
  · exact key divwo_compute
  · exact key divwuo_compute
  · exact key mullwo_compute
  · exact key mulldo_compute

/-- C3 witness: add_ on a concrete input with incoming so = true. -/
theorem c3_witness :
    ∃ r, ({ rt := some 2, cr0 := some ⟨false, true, false, true⟩ } :
        InstructionOutput).rt = some r ∧
      ({ rt := some 2, cr0 := some ⟨false, true, false, true⟩ } :
        InstructionOutput).cr0 =
        some (.from_signed_int (i64ofU64 r) true) ∧
      ({ rt := some 2, cr0 := some ⟨false, true, false, true⟩ } :
        InstructionOutput).overflow = none :=
  c3_amended_dot_cr0 add_ (by simp)
    { ra := some 1, rb := some 1, overflow := some ⟨true, false, false⟩ }
    ⟨true, false, false⟩ _ rfl rfl

/-- Range of the i32 view of a u64 value. -/
theorem i32ofU64_bounds (n : Nat) :
    -(2 ^ 31) ≤ i32ofU64 n ∧ i32ofU64 n < 2 ^ 31 := by
  simp only [i32ofU64]
  split_ifs with h <;> constructor <;> omega

/-- Wrapping to the i64 range is the identity on that range. -/
theorem wrapI64_eq_self {z : Int} (h1 : -(2 ^ 63) ≤ z) (h2 : z < 2 ^ 63) :
    wrapI64 z = z := by
  simp only [wrapI64]
  omega

/-- The u64 encoding of an i64-range value decodes back to it. -/
theorem i64ofU64_u64ofInt {z : Int} (h1 : -(2 ^ 63) ≤ z)
    (h2 : z < 2 ^ 63) : i64ofU64 (u64ofInt z) = z := by
  simp only [i64ofU64, u64ofInt]
  split_ifs with h <;> omega

/-- Product of two i32-range values lies in the i64 range. -/
theorem mul_range_of_i32 {a b : Int} (ha1 : -(2 ^ 31) ≤ a)
    (ha2 : a < 2 ^ 31) (hb1 : -(2 ^ 31) ≤ b) (hb2 : b < 2 ^ 31) :
    -(2 ^ 63) ≤ a * b ∧ a * b < 2 ^ 63 := by
  have ha : |a| ≤ 2 ^ 31 := abs_le.mpr ⟨ha1, le_of_lt ha2⟩
  have hb : |b| ≤ 2 ^ 31 := abs_le.mpr ⟨hb1, le_of_lt hb2⟩
  have hab : |a * b| ≤ 2 ^ 62 := by
    rw [abs_mul]
    calc |a| * |b| ≤ 2 ^ 31 * 2 ^ 31 :=
          mul_le_mul ha hb (abs_nonneg b) (by positivity)
      _ = 2 ^ 62 := by norm_num
  have hrange := abs_le.mp hab
  constructor
  · linarith [hrange.1, (by norm_num : -(2 : Int) ^ 63 ≤ -2 ^ 62)]
  · linarith [hrange.2, (by norm_num : (2 : Int) ^ 62 < 2 ^ 63)]

/-- C6 counterexample: the claim states mullwo's rt is the 64-bit product
truncated to 32 bits with sign extension.  At ra = rb = 0x10000 the
product is 2^32; the model returns rt = 2^32 itself, which differs from
the sign-extension of its truncated low 32 bits (zero). -/
theorem c6_counterexample :
    mullwo { ra := some 65536, rb := some 65536,
             overflow := some ⟨false, false, false⟩ } =
      .ok { rt := some 4294967296, overflow := some ⟨true, true, true⟩ } ∧
    decide ((some (4294967296 : Nat) : Option Nat) =
      some (u64ofInt (i32ofU64 4294967296))) = false :=
  ⟨rfl, by decide⟩

/-- C6 amended: mullwo computes the 32-bit signed multiply in
sign-extended 64-bit intermediates and returns the full (wrapped) 64-bit
product as rt, NOT truncated to 32 bits; the overflow bit is true iff the
64-bit product does not equal the sign-extension of its low 32 bits. -/
theorem c6_amended_mullwo :
    ∀ ra rb : Nat, ra < 2 ^ 64 → rb < 2 ^ 64 →
    ∀ (f : OverflowFlags) (x : InstructionInput),
      x.ra = some ra → x.rb = some rb → x.overflow = some f →
      ∃ out o, mullwo x = .ok out ∧
        out.rt = some (u64ofInt (i32ofU64 ra * i32ofU64 rb)) ∧
        out.overflow = some o ∧
        (o.ov = true ↔
          i32ofU64 (u64ofInt (i32ofU64 ra * i32ofU64 rb)) ≠
            i32ofU64 ra * i32ofU64 rb) := by
  intro ra rb _ _ f x hra hrb hov
  have hp := mul_range_of_i32 (i32ofU64_bounds ra).1 (i32ofU64_bounds ra).2
    (i32ofU64_bounds rb).1 (i32ofU64_bounds rb).2
  have hwrap : wrapI64 (i32ofU64 ra * i32ofU64 rb) =
      i32ofU64 ra * i32ofU64 rb := wrapI64_eq_self hp.1 hp.2
  have hback : i64ofU64 (u64ofInt (i32ofU64 ra * i32ofU64 rb)) =
      i32ofU64 ra * i32ofU64 rb := i64ofU64_u64ofInt hp.1 hp.2
  refine ⟨_, _, mkOvBase_ok hra hrb hov, ?_, rfl, ?_⟩
  · show some (mullwo_compute ra rb).1 =
      some (u64ofInt (i32ofU64 ra * i32ofU64 rb))
    simp only [mullwo_compute]
    rw [hwrap]
  · show ((mullwo_compute ra rb).2).ov = true ↔ _
    simp only [mullwo_compute, OverflowFlags.from_overflow]
    rw [hwrap, hback]
    simp

/-- C6 witness: ra = rb = 0x10000. -/
theorem c6_witness :
    ∃ out o,
      mullwo { ra := some 65536, rb := some 65536, rc := none,
               carry := none, overflow := some ⟨false, false, false⟩ } =
        .ok out ∧
      out.rt = some (u64ofInt (i32ofU64 65536 * i32ofU64 65536)) ∧
      out.overflow = some o ∧
      (o.ov = true ↔
        i32ofU64 (u64ofInt (i32ofU64 65536 * i32ofU64 65536)) ≠
          i32ofU64 65536 * i32ofU64 65536) :=
  c6_amended_mullwo 65536 65536 (by norm_num) (by norm_num)
    ⟨false, false, false⟩
    { ra := some 65536, rb := some 65536, rc := none, carry := none,
      overflow := some ⟨false, false, false⟩ } rfl rfl rfl

/-- Every u32 truncation is below 2^32. -/
theorem u32ofInt_lt (z : Int) : u32ofInt z < 2 ^ 32 := by
  simp only [u32ofInt]
  omega

/-- Low half of a word formed by duplicating a 32-bit value into both
halves with a bitwise or. -/
theorem lor_dup_low {h : Nat} (hh : h < 2 ^ 32) :
    (h ||| h <<< 32) % 2 ^ 32 = h := by
  apply Nat.eq_of_testBit_eq
  intro i
  rw [Nat.testBit_mod_two_pow, Nat.testBit_lor, Nat.testBit_shiftLeft]
  by_cases hi : i < 32
  · have h32 : ¬(32 ≤ i) := by omega
    simp [hi, h32]
  · have hbit : h.testBit i = false :=
      Nat.testBit_lt_two_pow
        (lt_of_lt_of_le hh (Nat.pow_le_pow_right (by omega) (by omega)))
    simp [hi, hbit]

/-- High half of a word formed by duplicating a 32-bit value into both
halves with a bitwise or. -/
theorem lor_dup_high {h : Nat} (hh : h < 2 ^ 32) :
    (h ||| h <<< 32) / 2 ^ 32 = h := by
  rw [← Nat.shiftRight_eq_div_pow]
  apply Nat.eq_of_testBit_eq
  intro i
  rw [Nat.testBit_shiftRight, Nat.testBit_lor, Nat.testBit_shiftLeft]
  have hbit : h.testBit (32 + i) = false :=
    Nat.testBit_lt_two_pow
      (lt_of_lt_of_le hh (Nat.pow_le_pow_right (by omega) (by omega)))
  have hle : 32 ≤ 32 + i := by omega
  have hsub : 32 + i - 32 = i := by omega
  simp [hbit, hle, hsub]

/-- The u32 truncation of an i64 high word is the high 32 bits of the u64
encoding of the full value. -/
theorem u32ofInt_high (p : Int) :
    u32ofInt (p / 2 ^ 32) = u64ofInt p / 2 ^ 32 := by
  simp only [u32ofInt, u64ofInt]
  omega

/-- C10: for both mulhw and mulhwu, the returned rt has the high 32-bit
word of the 64-bit product (sign-extended operands for mulhw,
zero-extended for mulhwu) duplicated into BOTH its low and high 32-bit
halves. -/
theorem c10_mulh_high_word_duplicated :
    ∀ a b : Nat, a < 2 ^ 64 → b < 2 ^ 64 →
    ∀ x : InstructionInput, x.ra = some a → x.rb = some b →
      (∃ out r, mulhw x = .ok out ∧ out.rt = some r ∧
        r % 2 ^ 32 = u64ofInt (i32ofU64 a * i32ofU64 b) / 2 ^ 32 ∧
        r / 2 ^ 32 = u64ofInt (i32ofU64 a * i32ofU64 b) / 2 ^ 32) ∧
      (∃ out r, mulhwu x = .ok out ∧ out.rt = some r ∧
        r % 2 ^ 32 = a % 2 ^ 32 * (b % 2 ^ 32) / 2 ^ 32 ∧
        r / 2 ^ 32 = a % 2 ^ 32 * (b % 2 ^ 32) / 2 ^ 32) := by
  intro a b _ _ x hra hrb
  constructor
  · unfold mulhw InstructionInput.try_get_ra InstructionInput.try_get_rb
    rw [hra, hrb]
    simp only [Bind.bind, Except.bind, pure, Except.pure]
    refine ⟨_, _, rfl, rfl, ?_, ?_⟩
    · rw [lor_dup_low (u32ofInt_lt _), u32ofInt_high]
    · rw [lor_dup_high (u32ofInt_lt _), u32ofInt_high]
  · unfold mulhwu InstructionInput.try_get_ra InstructionInput.try_get_rb
    rw [hra, hrb]
    simp only [Bind.bind, Except.bind, pure, Except.pure]
    have hq : a % 2 ^ 32 * (b % 2 ^ 32) / 2 ^ 32 < 2 ^ 32 := by
      apply Nat.div_lt_of_lt_mul
      calc a % 2 ^ 32 * (b % 2 ^ 32) < 2 ^ 32 * 2 ^ 32 :=
            Nat.mul_lt_mul'' (Nat.mod_lt _ (by norm_num))
              (Nat.mod_lt _ (by norm_num))
        _ = 2 ^ 32 * 2 ^ 32 := rfl
    have hmod : a % 2 ^ 32 * (b % 2 ^ 32) / 2 ^ 32 % 2 ^ 32 =
        a % 2 ^ 32 * (b % 2 ^ 32) / 2 ^ 32 := Nat.mod_eq_of_lt hq
    refine ⟨_, _, rfl, rfl, ?_, ?_⟩
    · rw [lor_dup_low (by rw [hmod]; exact hq), hmod]
    · rw [lor_dup_high (by rw [hmod]; exact hq), hmod]

/-- C10 witness: a = u64::MAX (i32 view -1), b = 2. -/
theorem c10_witness :
    (∃ out r, mulhw { ra := some (2 ^ 64 - 1), rb := some 2, rc := none,
                      carry := none, overflow := none } =
        .ok out ∧ out.rt = some r ∧
      r % 2 ^ 32 =
        u64ofInt (i32ofU64 (2 ^ 64 - 1) * i32ofU64 2) / 2 ^ 32 ∧
      r / 2 ^ 32 =
        u64ofInt (i32ofU64 (2 ^ 64 - 1) * i32ofU64 2) / 2 ^ 32) ∧
    (∃ out r, mulhwu { ra := some (2 ^ 64 - 1), rb := some 2, rc := none,
                       carry := none, overflow := none } =
        .ok out ∧ out.rt = some r ∧
      r % 2 ^ 32 = (2 ^ 64 - 1) % 2 ^ 32 * (2 % 2 ^ 32) / 2 ^ 32 ∧
      r / 2 ^ 32 = (2 ^ 64 - 1) % 2 ^ 32 * (2 % 2 ^ 32) / 2 ^ 32) :=
  c10_mulh_high_word_duplicated (2 ^ 64 - 1) 2 (by norm_num) (by norm_num)
    { ra := some (2 ^ 64 - 1), rb := some 2, rc := none, carry := none,
      overflow := none } rfl rfl

/-- Digit characters decode back to their value. -/
theorem hexDigitVal_hexDigitChar {n : Nat} (hn : n < 16) :
    hexDigitVal (hexDigitChar n) = some n := by
  interval_cases n <;> decide

/-- Every character emitted by hexChars is a hex digit character. -/
theorem hexChars_mem {n : Nat} :
    ∀ c ∈ hexChars n, ∃ d, d < 16 ∧ c = hexDigitChar d := by
  induction n using Nat.strong_induction_on with
  | _ n ih =>
    intro c hc
    rw [hexChars] at hc
    split_ifs at hc with h16
    · simp only [List.mem_singleton] at hc
      exact ⟨n, h16, hc⟩
    · rw [List.mem_append] at hc
      rcases hc with hc | hc
      · exact ih (n / 16) (Nat.div_lt_self (by omega) (by omega)) c hc
      · simp only [List.mem_singleton] at hc
        exact ⟨n % 16, Nat.mod_lt _ (by omega), hc⟩

/-- hexChars always emits at least one digit. -/
theorem hexChars_ne_nil (n : Nat) : hexChars n ≠ [] := by
  rw [hexChars]
  split_ifs <;> simp

/-- The digit loop processes an appended list left to right. -/
theorem parseHexDigits_append (l1 l2 : List Char) (acc : Nat) :
    parseHexDigits (l1 ++ l2) acc =
      match parseHexDigits l1 acc with
      | .ok a => parseHexDigits l2 a
      | .error e => .error e := by
  induction l1 generalizing acc with
  | nil => simp [parseHexDigits]
  | cons c rest ih =>
    cases h : hexDigitVal c with
    | none => simp [parseHexDigits, h]
    | some d =>
      by_cases hd : 16 * acc + d < 18446744073709551616
      · simp [parseHexDigits, h, hd, ih]
      · simp [parseHexDigits, h, hd]

/-- The digit loop evaluates the digits of n on top of an accumulator, as
long as the combined value stays in the u64 range. -/
theorem parseHexDigits_hexChars : ∀ n acc : Nat,
    acc * 16 ^ (hexChars n).length + n < 2 ^ 64 →
    parseHexDigits (hexChars n) acc =
      .ok (acc * 16 ^ (hexChars n).length + n) := by
  intro n
  induction n using Nat.strong_induction_on with
  | _ n ih =>
    intro acc hacc
    by_cases h16 : n < 16
    · rw [hexChars] at hacc ⊢
      rw [dif_pos h16] at hacc ⊢
      simp only [List.length_singleton, pow_one] at hacc ⊢
      simp only [parseHexDigits, hexDigitVal_hexDigitChar h16]
      rw [if_pos (by omega)]
      congr 1
      omega
    · rw [hexChars] at hacc ⊢
      rw [dif_neg h16] at hacc ⊢
      rw [parseHexDigits_append]
      simp only [List.length_append, List.length_singleton, pow_succ,
        ← mul_assoc] at hacc ⊢
      have h1 : acc * 16 ^ (hexChars (n / 16)).length + n / 16 < 2 ^ 64 := by
        omega
      rw [ih (n / 16) (Nat.div_lt_self (by omega) (by omega)) acc h1]
      simp only [parseHexDigits,
        hexDigitVal_hexDigitChar (show n % 16 < 16 by omega)]
      rw [if_pos (by omega)]
      congr 1
      omega

/-- The from_str_radix entry hands a non-sign-led list straight to the
digit loop. -/
theorem fromStrRadix16_cons_ne_plus {c : Char} (h : c ≠ '+')
    (rest : List Char) :
    fromStrRadix16U64 (c :: rest) = parseHexDigits (c :: rest) 0 := by
  unfold fromStrRadix16U64
  split
  · next cs heq => exact absurd heq (by simp)
  · next cs rest2 heq =>
    rw [List.cons.injEq] at heq
    exact absurd heq.1 h
  · rfl

/-- The from_str_radix entry strips one leading plus sign. -/
theorem fromStrRadix16_plus (rest : List Char) :
    fromStrRadix16U64 ('+' :: rest) =
      if rest.isEmpty then .error "invalid digit found in string"
      else parseHexDigits rest 0 := rfl

/-- Round trip of the hex codec over the u64 range. -/
theorem deserialize_serialize (n : Nat) (hn : n < 2 ^ 64) :
    deserializeU64 (serializeU64 n) = .ok n := by
  have hmain := parseHexDigits_hexChars n 0 (by simpa using hn)
  rw [Nat.zero_mul, Nat.zero_add] at hmain
  show fromStrRadix16U64 (hexChars n) = .ok n
  rcases hne : hexChars n with _ | ⟨c, rest⟩
  · exact absurd hne (hexChars_ne_nil n)
  · obtain ⟨d, hd, hcd⟩ := hexChars_mem c (hne ▸ List.mem_cons_self c rest)
    have hcplus : c ≠ '+' := by
      intro h
      have h2 := hexDigitVal_hexDigitChar hd
      rw [← hcd, h] at h2
      have h3 : hexDigitVal '+' = none := by decide
      rw [h3] at h2
      cases h2
    rw [fromStrRadix16_cons_ne_plus hcplus, ← hne, hmain]

/-- Strings without the 0x prefix are rejected. -/
theorem deserialize_requires_prefix (text : String)
    (h : ∀ rest, text.data ≠ '0' :: 'x' :: rest) :
    deserializeU64 text = .error "hexadecimal field must start with 0x" := by
  unfold deserializeU64
  split
  · next rest heq => exact absurd heq (h rest)
  · rfl

/-- The digit loop fails whenever the list holds a non-digit character. -/
theorem parseHexDigits_err : ∀ (l : List Char) (c : Char), c ∈ l →
    hexDigitVal c = none → ∀ acc, ∃ e, parseHexDigits l acc = .error e := by
  intro l
  induction l with
  | nil => intro c hc; cases hc
  | cons c0 rest ih =>
    intro c hc hbad acc
    rcases List.mem_cons.mp hc with rfl | hmem
    · exact ⟨"invalid digit found in string",
        by simp [parseHexDigits, hbad]⟩
    · cases h0 : hexDigitVal c0 with
      | none => exact ⟨"invalid digit found in string",
          by simp [parseHexDigits, h0]⟩
      | some d =>
        by_cases hlt : 16 * acc + d < 2 ^ 64
        · obtain ⟨e, he⟩ := ih c hmem hbad (16 * acc + d)
          refine ⟨e, ?_⟩
          simp only [parseHexDigits, h0]
          rw [if_pos hlt]
          exact he
        · refine ⟨"number too large to fit in target type", ?_⟩
          simp only [parseHexDigits, h0]
          rw [if_neg hlt]

/-- After the 0x prefix, any non-digit character other than a leading plus
sign makes deserialization fail. -/
theorem deserialize_rejects_bad_digit (rest : List Char) (c : Char)
    (hc : c ∈ rest) (hbad : hexDigitVal c = none) (hplus : c ≠ '+') :
    ∃ e, deserializeU64 ⟨'0' :: 'x' :: rest⟩ = .error e := by
  show ∃ e, fromStrRadix16U64 rest = .error e
  rcases rest with _ | ⟨c0, rest2⟩
  · cases hc
  · by_cases hc0 : c0 = '+'
    · subst hc0
      have hmem : c ∈ rest2 := by
        rcases List.mem_cons.mp hc with rfl | hm
        · exact absurd rfl hplus
        · exact hm
      have hne2 : ¬(rest2.isEmpty = true) := by
        cases rest2
        · cases hmem
        · simp
      rw [fromStrRadix16_plus, if_neg hne2]
      exact parseHexDigits_err rest2 c hmem hbad 0
    · rw [fromStrRadix16_cons_ne_plus hc0]
      exact parseHexDigits_err (c0 :: rest2) c hc hbad 0

/-- C8 counterexample: the claim states a string whose digits are not
valid hexadecimal fails to deserialize.  The underlying from_str_radix
accepts an optional leading plus sign, so the string 0x+5 deserializes
successfully to 5 although the plus sign is not a hexadecimal digit. -/
theorem c8_counterexample :
    deserializeU64 ⟨['0', 'x', '+', '5']⟩ = .ok 5 ∧
    hexDigitVal '+' = none :=
  ⟨rfl, rfl⟩

/-- C8 amended: every u64 serializes as the 0x prefix followed by its hex
digits and round-trips exactly through deserialization; a string without
the 0x prefix is rejected with a parse error; after the prefix the parser
accepts an optional leading plus sign, and any non-digit character other
than that sign causes a parse error (a malformed string is never coerced
to a value). -/
theorem c8_amended_hex_codec :
    (∀ n : Nat, (serializeU64 n).data = '0' :: 'x' :: hexChars n) ∧
    (∀ n : Nat, n < 2 ^ 64 → deserializeU64 (serializeU64 n) = .ok n) ∧
    (∀ text : String, (∀ rest, text.data ≠ '0' :: 'x' :: rest) →
      deserializeU64 text =
        .error "hexadecimal field must start with 0x") ∧
    (∀ (rest : List Char) (c : Char), c ∈ rest → hexDigitVal c = none →
      c ≠ '+' → ∃ e, deserializeU64 ⟨'0' :: 'x' :: rest⟩ = .error e) :=
  ⟨fun _ => rfl, deserialize_serialize, deserialize_requires_prefix,
    deserialize_rejects_bad_digit⟩

/-- C8 witness: 255 serializes to 0xFF and deserializes back to 255. -/
theorem c8_witness : deserializeU64 (serializeU64 255) = .ok 255 :=
  c8_amended_hex_codec.2.1 255 (by norm_num)

end Pia
